import Mathlib

/-!
Shallow embedding of the XANA-village-loto adaptive pipeline
(src/evaluate.py, src/learn.py, src/features.py, src/predict_adaptive.py).
Machine floats are modelled by exact rationals; Python dicts keyed by number
are modelled by total functions with the dict's `.get(•, 0)` default; a Python
operation that raises (division by zero on an empty batch or empty history)
is modelled by an `Option` result, `none` standing for the raise.

Definitions come first — the Evaluator (evaluate.py), the Weight Learner
(learn.py), the Feature Extractor (features.py) and the Combination
Generator / confidence scorer (predict_adaptive.py) — followed by all
lemmas and the claim theorems.
-/

namespace Loto

/-! #### evaluate.py — TotoEvaluator.evaluate_predictions -/

/-- Ascending sort used where the source calls `sorted(...)`. -/
def sortAsc (l : List ℕ) : List ℕ := List.insertionSort (· ≤ ·) l

/-- `len(set(numbers) & set(actual))` from evaluate.py line 73. -/
def hitCount (numbers actual : List ℕ) : ℕ :=
  (numbers.toFinset ∩ actual.toFinset).card

/-- One entry of `evaluation['predictions']` (evaluate.py lines 75-83). -/
structure PredictionEval where
  index : ℕ
  predicted_numbers : List ℕ
  confidence_score : ℚ
  hit_count : ℕ
  hit_numbers : Finset ℕ
  missed_numbers : Finset ℕ
  extra_numbers : Finset ℕ

/-- `evaluation['summary']` (evaluate.py lines 59-64).  The hit-count
histogram dict is modelled as a total function on ℕ. -/
structure EvalSummary where
  best_hit_count : ℕ
  best_prediction_index : ℤ
  average_hit_count : ℚ
  hit_distribution : ℕ → ℕ

/-- The evaluation record built by `evaluate_predictions`. -/
structure Evaluation where
  draw_date : String
  actual_result : List ℕ
  total_predictions : ℕ
  predictions : List PredictionEval
  summary : EvalSummary

/-- Mutable accumulators of the `for i, (numbers, score)` loop
(evaluate.py lines 67-91): `total_hits`, `best_hits`, `best_index`, and the
hit-count histogram. -/
structure LoopState where
  total_hits : ℕ
  best_hits : ℕ
  best_index : ℤ
  hist : ℕ → ℕ

/-- The body of the evaluation loop (evaluate.py lines 71-91), one prediction
at a time; `i` is the running enumeration index. -/
def evalLoop (actual : List ℕ) :
    List (List ℕ × ℚ) → ℕ → LoopState → List PredictionEval × LoopState
  | [], _, s => ([], s)
  | (numbers, score) :: rest, i, s =>
    let sorted_numbers := sortAsc numbers
    let hits := hitCount sorted_numbers actual
    let pe : PredictionEval :=
      { index := i + 1
        predicted_numbers := sorted_numbers
        confidence_score := score
        hit_count := hits
        hit_numbers := sorted_numbers.toFinset ∩ actual.toFinset
        missed_numbers := actual.toFinset \ sorted_numbers.toFinset
        extra_numbers := sorted_numbers.toFinset \ actual.toFinset }
    let s1 : LoopState :=
      { total_hits := s.total_hits + hits
        best_hits := if s.best_hits < hits then hits else s.best_hits
        best_index := if s.best_hits < hits then (i : ℤ) else s.best_index
        hist := Function.update s.hist hits (s.hist hits + 1) }
    let r := evalLoop actual rest (i + 1) s1
    (pe :: r.1, r.2)

/-- `TotoEvaluator.evaluate_predictions` (evaluate.py lines 40-101).
The final `total_hits / len(predictions)` raises `ZeroDivisionError` on an
empty batch, modelled by `none`. -/
def evaluate_predictions (draw_date : String) (predictions : List (List ℕ × ℚ))
    (actual_result : List ℕ) : Option Evaluation :=
  if predictions = [] then none
  else
    let actual_sorted := sortAsc actual_result
    let s0 : LoopState :=
      { total_hits := 0, best_hits := 0, best_index := -1, hist := fun _ => 0 }
    let r := evalLoop actual_sorted predictions 0 s0
    some
      { draw_date := draw_date
        actual_result := actual_sorted
        total_predictions := predictions.length
        predictions := r.1
        summary :=
          { best_hit_count := r.2.best_hits
            best_prediction_index := r.2.best_index + 1
            average_hit_count := (r.2.total_hits : ℚ) / (predictions.length : ℚ)
            hit_distribution := r.2.hist } }

/-- The loop of `evaluate_predictions` at its actual initial state. -/
def evalRun (predictions : List (List ℕ × ℚ)) (actual_result : List ℕ) :
    List PredictionEval × LoopState :=
  evalLoop (sortAsc actual_result) predictions 0
    { total_hits := 0, best_hits := 0, best_index := -1, hist := fun _ => 0 }

/-- The hit count the loop computes for one raw prediction. -/
def hitsOf (actual : List ℕ) (p : List ℕ × ℚ) : ℕ := hitCount (sortAsc p.1) actual

/-! #### learn.py — TotoLearner -/

/-- The three per-number feature maps that `analyze_single_feature` reads
(learn.py lines 97-102 and 110-115); a Python `dict.get(num, 0)` is the
total function itself. -/
structure Features where
  total_appearances : ℕ → ℚ
  recent_appearances : ℕ → ℚ
  missing_intervals : ℕ → ℚ

/-- The `elif` chain of learn.py lines 97-103 / 110-116: only three feature
names put an entry into the value dict; every other name adds nothing. -/
def featureValue (features : Features) (feature_name : String) (num : ℕ) : Option ℚ :=
  if feature_name = "total_appearances" then some (features.total_appearances num)
  else if feature_name = "recent_appearances" then some (features.recent_appearances num)
  else if feature_name = "missing_intervals" then some (features.missing_intervals num)
  else none

/-- The record returned by `analyze_single_feature` (learn.py lines 125-130). -/
structure FeaturePerformance where
  actual_average : ℚ
  predicted_average : ℚ
  effectiveness : ℚ
  contribution_score : ℚ

/-- `TotoLearner.analyze_single_feature` (learn.py lines 89-130).  The value
dicts keyed by number are modelled by the deduplicated key list mapped
through `featureValue`; `statistics.mean` guarded by the `if ... else 0`. -/
def analyze_single_feature (feature_name : String) (features : Features)
    (actual_result : List ℕ) (predictions : List PredictionEval) : FeaturePerformance :=
  let actualVals := actual_result.dedup.filterMap (featureValue features feature_name)
  let predictedNums :=
    ((predictions.filter (fun p => 2 ≤ p.hit_count)).flatMap
      (fun p => p.predicted_numbers)).dedup
  let predictedVals := predictedNums.filterMap (featureValue features feature_name)
  let actual_avg : ℚ :=
    if actualVals = [] then 0 else actualVals.sum / (actualVals.length : ℚ)
  let predicted_avg : ℚ :=
    if predictedVals = [] then 0 else predictedVals.sum / (predictedVals.length : ℚ)
  let effectiveness : ℚ :=
    1 - |actual_avg - predicted_avg| / max actual_avg (max predicted_avg 1)
  { actual_average := actual_avg
    predicted_average := predicted_avg
    effectiveness := max 0 effectiveness
    contribution_score := 0 }

/-- `TotoLearner.calculate_weight_adjustments` (learn.py lines 132-161). -/
def calculate_weight_adjustments (feature_performance : List (String × FeaturePerformance))
    (evaluation : Evaluation) (learning_rate : ℚ) : List (String × ℚ) :=
  let best_hit_count : ℚ := (evaluation.summary.best_hit_count : ℚ)
  let avg_hit_count : ℚ := evaluation.summary.average_hit_count
  let overall_performance := best_hit_count / 6 * (7/10) + avg_hit_count / 6 * (3/10)
  feature_performance.map (fun fp =>
    let effectiveness := fp.2.effectiveness
    (fp.1,
      if 6/10 < effectiveness then
        if 1/2 < overall_performance then learning_rate * effectiveness
        else -(learning_rate * effectiveness * (1/2))
      else
        if 1/2 < overall_performance then -(learning_rate * (1 - effectiveness) * (3/10))
        else -(learning_rate * (1 - effectiveness))))

/-- The per-feature update of learn.py line 172: add the delta, then clamp to
[0.01, 0.5].  Weights and adjustments are aligned positionally, matching
the dict iteration over identical key sets. -/
def clamped_weights (weights adjustments : List (String × ℚ)) : List (String × ℚ) :=
  List.zipWith (fun w a => (w.1, max (1/100) (min (1/2) (w.2 + a.2)))) weights adjustments

/-- `TotoLearner.apply_weight_adjustments` (learn.py lines 163-185): clamp
each adjusted weight, then divide every weight by the total. -/
def apply_weight_adjustments (weights adjustments : List (String × ℚ)) : List (String × ℚ) :=
  let updated := clamped_weights weights adjustments
  let total_weight := (updated.map Prod.snd).sum
  updated.map (fun w => (w.1, w.2 / total_weight))

/-- `TotoLearner.learn_from_evaluation` (learn.py lines 187-213).  The result
is (weight vector after the call, whether `save_weights` ran, whether the
missing-evaluation condition was reported and the update skipped). -/
def learn_from_evaluation (weights : List (String × ℚ))
    (results : String → Option Evaluation) (draw_date : String) (features : Features)
    (learning_rate : ℚ) : List (String × ℚ) × Bool × Bool :=
  match results draw_date with
  | none => (weights, false, true)
  | some evaluation =>
    let feature_performance := weights.map (fun w =>
      (w.1, analyze_single_feature w.1 features evaluation.actual_result
        evaluation.predictions))
    let adjustments := calculate_weight_adjustments feature_performance evaluation
      learning_rate
    (apply_weight_adjustments weights adjustments, true, false)

/-! #### features.py — TotoFeatures

The draw history is a list of 6-number rows ordered oldest first: the source
treats the tail of the flattened history as the recent draws
(`get_recent_appearances`, features.py line 45).
-/

/-- `TotoFeatures.get_missing_intervals` (features.py lines 48-67): for each
number, scan the rows from index 0 upward and stop (`break`) at the first row
containing it, then report `len(data) - 1 - i`; `len(data)` if absent. -/
def get_missing_intervals (data : List (List ℕ)) (num : ℕ) : ℕ :=
  match data.findIdx? (fun row => decide (num ∈ row)) with
  | some i => data.length - 1 - i
  | none => data.length

/-- The spec's description of `missing_intervals` (for comparison with the
code): the count of draws since the number's most recent appearance, equal to
the full history length if it never appeared. -/
def missing_intervals_described (data : List (List ℕ)) (num : ℕ) : ℕ :=
  match data.reverse.findIdx? (fun row => decide (num ∈ row)) with
  | some i => i
  | none => data.length

/-- Sorted adjacent pairs at distance exactly 1 (features.py lines 82-84). -/
def countConsecutive : List ℕ → ℕ
  | x :: y :: rest => (if y - x = 1 then 1 else 0) + countConsecutive (y :: rest)
  | _ => 0

/-- Unordered pairs at distance at most 2 (features.py lines 87-90). -/
def countPairsClose : List ℕ → ℕ
  | [] => 0
  | x :: rest => rest.countP (fun y => decide (Nat.dist x y ≤ 2)) + countPairsClose rest

/-- `TotoFeatures.get_consecutive_pairs_frequency` (features.py lines 69-95).
Both returned rates divide by `total_draws`, which raises
`ZeroDivisionError` on an empty history — modelled by `none`. -/
def get_consecutive_pairs_frequency (data : List (List ℕ)) : Option (ℚ × ℚ) :=
  let total_draws := data.length
  let consecutive_count := (data.map (fun row => countConsecutive (sortAsc row))).sum
  let pair_count := (data.map (fun row => countPairsClose (sortAsc row))).sum
  if total_draws = 0 then none
  else some ((consecutive_count : ℚ) / (total_draws : ℚ),
             (pair_count : ℚ) / ((total_draws : ℚ) * 15))

/-- `TotoFeatures.get_odd_even_ratio` (features.py lines 97-103): divides by
`len(all_numbers)`, raising on an empty history — modelled by `none`. -/
def get_odd_even_ratio (data : List (List ℕ)) : Option ℚ :=
  let all_numbers := data.flatMap id
  let odd_count := all_numbers.countP (fun n => decide (n % 2 = 1))
  if all_numbers.length = 0 then none
  else some ((odd_count : ℚ) / (all_numbers.length : ℚ))

/-! #### predict_adaptive.py — TotoPredictorAdaptive

`predict_numbers` is embedded with its two effectful collaborators as
parameters: the candidate pool (the top-scored numbers of source steps 1-2)
and the random sampler (`random.sample(candidates, 6)`), the latter as a
stream of proposed samples indexed by the attempt counter.
-/

/-- The `is_prime` helper of predict_adaptive.py lines 228-234: trial
division over `range(2, int(n**0.5) + 1)`. -/
def is_prime (n : ℕ) : Bool :=
  if n < 2 then false
  else (List.range' 2 (Nat.sqrt n - 1)).all (fun i => n % i != 0)

/-- The `is_square` helper of predict_adaptive.py lines 241-243. -/
def is_square (n : ℕ) : Bool := Nat.sqrt n * Nat.sqrt n == n

/-- The interval bucketing of predict_adaptive.py lines 193-203. -/
def bucketIdx (num : ℕ) : ℕ :=
  if 1 ≤ num ∧ num ≤ 10 then 0
  else if 11 ≤ num ∧ num ≤ 20 then 1
  else if 21 ≤ num ∧ num ≤ 30 then 2
  else if 31 ≤ num ∧ num ≤ 40 then 3
  else 4

/-- `TotoPredictorAdaptive.calculate_combination_score`
(predict_adaptive.py lines 170-249). -/
def calculate_combination_score (numbers : List ℕ) : ℚ :=
  if numbers.length ≠ 6 then 0
  else
    let total : ℕ := numbers.sum
    let total_score : ℚ := 1 - |(total : ℚ) - 147| / 147
    let odd_count := numbers.countP (fun n => decide (n % 2 = 1))
    let even_count := 6 - odd_count
    let balance_score : ℚ := 1 - |(odd_count : ℚ) - (even_count : ℚ)| / 6
    let intervalCounts : List ℕ :=
      (List.range 5).map (fun b => numbers.countP (fun n => decide (bucketIdx n = b)))
    let distribution_score : ℚ :=
      ((intervalCounts.map (fun c =>
        if 1 ≤ c ∧ c ≤ 2 then (1 : ℚ) else if c = 0 then 3/10 else 1/2)).sum) / 5
    let consecutive_count := countConsecutive (sortAsc numbers)
    let consecutive_score : ℚ := 1 - (consecutive_count : ℚ) / 3
    let prime_count := numbers.countP (fun n => is_prime n)
    let prime_score : ℚ := 1 - |(prime_count : ℚ) - 2| / 6
    let square_count := numbers.countP (fun n => is_square n)
    let square_score : ℚ := 1 - |(square_count : ℚ) - 1| / 6
    (2/10) * total_score + (15/100) * balance_score + (15/100) * distribution_score
      + (1/10) * consecutive_score + (1/10) * prime_score + (1/10) * square_score

/-- The sampling loop of `predict_numbers` (predict_adaptive.py lines
265-287): while fewer than `k` predictions and attempts remain in the
budget, draw the next sample, score it, and append it unless its number set
duplicates an accepted one.  `fuel` is the remaining attempt budget. -/
def genLoop (sample : ℕ → List ℕ) (k : ℕ) :
    ℕ → ℕ → List (List ℕ × ℚ) → List (List ℕ × ℚ)
  | _, 0, preds => preds
  | attempts, fuel + 1, preds =>
    if preds.length < k then
      let selected := sample attempts
      let score := calculate_combination_score selected
      let next :=
        if preds.any (fun p => decide (p.1.toFinset = selected.toFinset)) then preds
        else preds ++ [(selected, score)]
      genLoop sample k (attempts + 1) fuel next
    else preds

/-- `TotoPredictorAdaptive.predict_numbers` (predict_adaptive.py lines
251-291) from the candidate pool on: run the sampling loop with budget
`num_predictions * 100`, sort by combination score descending, and return
the first `num_predictions`. -/
def predict_numbers (sample : ℕ → List ℕ) (candidates : List ℕ)
    (num_predictions : ℕ) : List (List ℕ × ℚ) :=
  let predictions := genLoop sample num_predictions 0 (num_predictions * 100) []
  (List.insertionSort (fun p q => q.2 ≤ p.2) predictions).take num_predictions

/-- What `random.sample(candidates, 6)` guarantees about each draw. -/
def validSample (candidates : List ℕ) (s : List ℕ) : Prop :=
  s.length = 6 ∧ s.Nodup ∧ ∀ x ∈ s, x ∈ candidates

/-- `TotoPredictorAdaptive.calculate_confidence_score`
(predict_adaptive.py lines 327-341), as a function of the candidate's
per-number scores and its combination score. -/
def calculate_confidence_score (individual_scores : List ℚ)
    (combination_score : ℚ) : ℚ :=
  let avg_individual_score := individual_scores.sum / (individual_scores.length : ℚ)
  (avg_individual_score * (6/10) + combination_score * (4/10)) * 100

instance : IsTotal (List ℕ × ℚ) (fun p q => q.2 ≤ p.2) :=
  ⟨fun a b => le_total b.2 a.2⟩

instance : IsTrans (List ℕ × ℚ) (fun p q => q.2 ≤ p.2) :=
  ⟨fun _ _ _ h1 h2 => le_trans h2 h1⟩

/-! #### Lemmas and claim theorems -/

theorem sortAsc_toFinset (l : List ℕ) : (sortAsc l).toFinset = l.toFinset :=
  List.toFinset_eq_of_perm _ _ (List.perm_insertionSort (· ≤ ·) l)

theorem if_lt_eq_max (b h : ℕ) : (if b < h then h else b) = max b h := by
  rcases le_or_lt h b with hle | hlt
  · rw [if_neg (not_lt.mpr hle), max_eq_left hle]
  · rw [if_pos hlt, max_eq_right (le_of_lt hlt)]

theorem hitsOf_eq (actual : List ℕ) (p : List ℕ × ℚ) :
    hitsOf (sortAsc actual) p = hitCount p.1 actual := by
  simp [hitsOf, hitCount, sortAsc_toFinset]

theorem le_foldl_max (l : List ℕ) : ∀ b : ℕ, b ≤ l.foldl max b := by
  induction l with
  | nil => intro b; simp
  | cons x xs ih => intro b; exact le_trans (le_max_left b x) (ih (max b x))

theorem mem_le_foldl_max (l : List ℕ) : ∀ b x, x ∈ l → x ≤ l.foldl max b := by
  induction l with
  | nil => intro b x hx; simp at hx
  | cons y ys ih =>
      intro b x hx
      rcases List.mem_cons.mp hx with h | h
      · subst h; exact le_trans (le_max_right b x) (le_foldl_max ys (max b x))
      · exact ih (max b y) x h

theorem foldl_max_mem (l : List ℕ) : ∀ b, l.foldl max b = b ∨ l.foldl max b ∈ l := by
  induction l with
  | nil => intro b; simp
  | cons x xs ih =>
      intro b
      rcases ih (max b x) with h | h
      · rcases max_cases b x with ⟨h1, _⟩ | ⟨h1, _⟩
        · left; simpa [h1] using h
        · right; simp only [List.foldl_cons]; rw [h, h1]; exact List.mem_cons_self x xs
      · right; exact List.mem_cons_of_mem x h

theorem evalLoop_length (actual : List ℕ) (l : List (List ℕ × ℚ)) :
    ∀ (i : ℕ) (s : LoopState), (evalLoop actual l i s).1.length = l.length := by
  induction l with
  | nil => intro i s; simp [evalLoop]
  | cons p rest ih =>
      intro i s
      obtain ⟨numbers, score⟩ := p
      simp [evalLoop, ih]

theorem evalLoop_hit (actual : List ℕ) (l : List (List ℕ × ℚ)) :
    ∀ (i : ℕ) (s : LoopState) (j : ℕ) (hj : j < l.length)
      (hj2 : j < (evalLoop actual l i s).1.length),
      ((evalLoop actual l i s).1.get ⟨j, hj2⟩).hit_count = hitsOf actual (l.get ⟨j, hj⟩) := by
  induction l with
  | nil => intro i s j hj _; simp at hj
  | cons p rest ih =>
      intro i s j hj hj2
      obtain ⟨numbers, score⟩ := p
      match j with
      | 0 => simp [evalLoop, hitsOf]
      | j + 1 =>
          have hj' : j < rest.length := by simpa using hj
          have hj2' : j < (evalLoop actual rest (i + 1)
              { total_hits := s.total_hits + hitsOf actual (numbers, score)
                best_hits := if s.best_hits < hitsOf actual (numbers, score) then
                    hitsOf actual (numbers, score) else s.best_hits
                best_index := if s.best_hits < hitsOf actual (numbers, score) then
                    (i : ℤ) else s.best_index
                hist := Function.update s.hist (hitsOf actual (numbers, score))
                    (s.hist (hitsOf actual (numbers, score)) + 1) }).1.length := by
            rw [evalLoop_length]; exact hj'
          simpa [evalLoop, hitsOf] using ih (i + 1) _ j hj' hj2'

theorem evalLoop_total (actual : List ℕ) (l : List (List ℕ × ℚ)) :
    ∀ (i : ℕ) (s : LoopState),
      (evalLoop actual l i s).2.total_hits = s.total_hits + (l.map (hitsOf actual)).sum := by
  induction l with
  | nil => intro i s; simp [evalLoop]
  | cons p rest ih =>
      intro i s
      obtain ⟨numbers, score⟩ := p
      simp only [evalLoop, List.map_cons, List.sum_cons]
      rw [ih]
      simp only [hitsOf]
      omega

theorem evalLoop_best (actual : List ℕ) (l : List (List ℕ × ℚ)) :
    ∀ (i : ℕ) (s : LoopState),
      (evalLoop actual l i s).2.best_hits = (l.map (hitsOf actual)).foldl max s.best_hits := by
  induction l with
  | nil => intro i s; simp [evalLoop]
  | cons p rest ih =>
      intro i s
      obtain ⟨numbers, score⟩ := p
      simp only [evalLoop, List.map_cons, List.foldl_cons]
      rw [ih]
      congr 1
      simp only [hitsOf]
      exact if_lt_eq_max _ _

theorem evalLoop_bestIdx (actual : List ℕ) (l : List (List ℕ × ℚ)) :
    ∀ (i : ℕ) (s : LoopState),
      ((evalLoop actual l i s).2.best_hits ≤ s.best_hits →
        (evalLoop actual l i s).2.best_index = s.best_index ∧
        (evalLoop actual l i s).2.best_hits = s.best_hits) ∧
      (s.best_hits < (evalLoop actual l i s).2.best_hits →
        ∃ j, ∃ hj : j < l.length,
          (evalLoop actual l i s).2.best_index = (i : ℤ) + j ∧
          hitsOf actual (l.get ⟨j, hj⟩) = (evalLoop actual l i s).2.best_hits ∧
          ∀ j', (hj' : j' < l.length) → j' < j →
            hitsOf actual (l.get ⟨j', hj'⟩) < (evalLoop actual l i s).2.best_hits) := by
  induction l with
  | nil =>
      intro i s
      constructor
      · intro _; exact ⟨rfl, rfl⟩
      · intro h; exact absurd h (lt_irrefl _)
  | cons p rest ih =>
      intro i s
      obtain ⟨numbers, score⟩ := p
      set h0 := hitsOf actual (numbers, score) with hh0
      set s1 : LoopState :=
        { total_hits := s.total_hits + h0
          best_hits := if s.best_hits < h0 then h0 else s.best_hits
          best_index := if s.best_hits < h0 then (i : ℤ) else s.best_index
          hist := Function.update s.hist h0 (s.hist h0 + 1) } with hs1
      have h2 : (evalLoop actual ((numbers, score) :: rest) i s).2 =
          (evalLoop actual rest (i + 1) s1).2 := rfl
      have hs1best : s1.best_hits = max s.best_hits h0 := by
        rw [hs1]; exact if_lt_eq_max _ _
      have hs1le : s.best_hits ≤ s1.best_hits := by rw [hs1best]; exact le_max_left _ _
      have hrle : s1.best_hits ≤ (evalLoop actual rest (i + 1) s1).2.best_hits := by
        rw [evalLoop_best]; exact le_foldl_max _ _
      obtain ⟨ih1, ih2⟩ := ih (i + 1) s1
      rw [h2]
      constructor
      · -- no strict improvement over s.best_hits
        intro hle
        have hs1eq : s1.best_hits = s.best_hits :=
          le_antisymm (le_trans hrle hle) hs1le
        have hnot : ¬ s.best_hits < h0 := by
          have hle2 : h0 ≤ s.best_hits := by
            rw [← hs1eq, hs1best]; exact le_max_right _ _
          exact not_lt.mpr hle2
        obtain ⟨e1, e2⟩ := ih1 (by rw [hs1eq]; exact hle)
        refine ⟨?_, by rw [e2, hs1eq]⟩
        rw [e1, hs1]
        exact if_neg hnot
      · -- strictly improved
        intro hlt
        by_cases hcase : (evalLoop actual rest (i + 1) s1).2.best_hits ≤ s1.best_hits
        · -- the maximum is attained at the head
          obtain ⟨e1, e2⟩ := ih1 hcase
          have hsb : s.best_hits < h0 := by
            rw [e2, hs1best] at hlt
            rcases lt_max_iff.mp hlt with h | h
            · exact absurd h (lt_irrefl _)
            · exact h
          have hs1h0 : s1.best_hits = h0 := by
            rw [hs1best]; exact max_eq_right (le_of_lt hsb)
          refine ⟨0, Nat.succ_pos _, ?_, ?_, ?_⟩
          · rw [e1]
            show (if s.best_hits < h0 then (i : ℤ) else s.best_index)
              = (i : ℤ) + ((0 : ℕ) : ℤ)
            rw [if_pos hsb]
            simp
          · show hitsOf actual (numbers, score) = _
            rw [← hh0, e2, hs1h0]
          · intro j' _ hj'; omega
        · -- the maximum is attained strictly inside the tail
          push_neg at hcase
          obtain ⟨j, hj, e1, e2, e3⟩ := ih2 hcase
          refine ⟨j + 1, Nat.succ_lt_succ hj, ?_, ?_, ?_⟩
          · rw [e1]; push_cast; ring
          · exact e2
          · intro j' hj' hlt'
            cases j' with
            | zero =>
                have hh : h0 ≤ s1.best_hits := by rw [hs1best]; exact le_max_right _ _
                show hitsOf actual (numbers, score) < _
                calc hitsOf actual (numbers, score) = h0 := hh0.symm
                  _ ≤ s1.best_hits := hh
                  _ < _ := hcase
            | succ j'' =>
                have hj'' : j'' < rest.length := Nat.lt_of_succ_lt_succ hj'
                exact e3 j'' hj'' (Nat.lt_of_succ_lt_succ hlt')

theorem evalRun_length (predictions : List (List ℕ × ℚ)) (actual_result : List ℕ) :
    (evalRun predictions actual_result).1.length = predictions.length :=
  evalLoop_length _ _ _ _

theorem evalRun_hit (predictions : List (List ℕ × ℚ)) (actual_result : List ℕ)
    (j : ℕ) (hj : j < predictions.length)
    (hj2 : j < (evalRun predictions actual_result).1.length) :
    ((evalRun predictions actual_result).1.get ⟨j, hj2⟩).hit_count
      = hitCount (predictions.get ⟨j, hj⟩).1 actual_result := by
  have h := evalLoop_hit (sortAsc actual_result) predictions 0
    { total_hits := 0, best_hits := 0, best_index := -1, hist := fun _ => 0 } j hj hj2
  rw [show (evalRun predictions actual_result).1.get ⟨j, hj2⟩
      = (evalLoop (sortAsc actual_result) predictions 0
          { total_hits := 0, best_hits := 0, best_index := -1,
            hist := fun _ => 0 }).1.get ⟨j, hj2⟩ from rfl, h, hitsOf_eq]

theorem evalRun_total (predictions : List (List ℕ × ℚ)) (actual_result : List ℕ) :
    (evalRun predictions actual_result).2.total_hits
      = (predictions.map (fun p => hitCount p.1 actual_result)).sum := by
  have h := evalLoop_total (sortAsc actual_result) predictions 0
    { total_hits := 0, best_hits := 0, best_index := -1, hist := fun _ => 0 }
  rw [show (evalRun predictions actual_result).2
      = (evalLoop (sortAsc actual_result) predictions 0
          { total_hits := 0, best_hits := 0, best_index := -1,
            hist := fun _ => 0 }).2 from rfl, h]
  have hm : predictions.map (hitsOf (sortAsc actual_result))
      = predictions.map (fun p => hitCount p.1 actual_result) :=
    List.map_congr_left fun p _ => hitsOf_eq actual_result p
  rw [hm]
  exact Nat.zero_add _

theorem evalRun_best (predictions : List (List ℕ × ℚ)) (actual_result : List ℕ) :
    (evalRun predictions actual_result).2.best_hits
      = (predictions.map (fun p => hitCount p.1 actual_result)).foldl max 0 := by
  have h := evalLoop_best (sortAsc actual_result) predictions 0
    { total_hits := 0, best_hits := 0, best_index := -1, hist := fun _ => 0 }
  rw [show (evalRun predictions actual_result).2
      = (evalLoop (sortAsc actual_result) predictions 0
          { total_hits := 0, best_hits := 0, best_index := -1,
            hist := fun _ => 0 }).2 from rfl, h]
  have hm : predictions.map (hitsOf (sortAsc actual_result))
      = predictions.map (fun p => hitCount p.1 actual_result) :=
    List.map_congr_left fun p _ => hitsOf_eq actual_result p
  rw [hm]

theorem evalRun_bestIdx_zero (predictions : List (List ℕ × ℚ)) (actual_result : List ℕ)
    (h : (evalRun predictions actual_result).2.best_hits = 0) :
    (evalRun predictions actual_result).2.best_index = -1 := by
  obtain ⟨part1, _⟩ := evalLoop_bestIdx (sortAsc actual_result) predictions 0
    { total_hits := 0, best_hits := 0, best_index := -1, hist := fun _ => 0 }
  exact (part1 (le_of_eq h)).1

theorem evalRun_bestIdx_pos (predictions : List (List ℕ × ℚ)) (actual_result : List ℕ)
    (h : 0 < (evalRun predictions actual_result).2.best_hits) :
    ∃ j, ∃ hj : j < predictions.length,
      (evalRun predictions actual_result).2.best_index = (j : ℤ) ∧
      hitCount (predictions.get ⟨j, hj⟩).1 actual_result
        = (evalRun predictions actual_result).2.best_hits ∧
      ∀ j' (hj' : j' < predictions.length), j' < j →
        hitCount (predictions.get ⟨j', hj'⟩).1 actual_result
          < (evalRun predictions actual_result).2.best_hits := by
  obtain ⟨_, part2⟩ := evalLoop_bestIdx (sortAsc actual_result) predictions 0
    { total_hits := 0, best_hits := 0, best_index := -1, hist := fun _ => 0 }
  obtain ⟨j, hj, e1, e2, e3⟩ := part2 h
  refine ⟨j, hj, by rw [show ((0 : ℕ) : ℤ) + (j : ℤ) = (j : ℤ) by ring] at e1; exact e1, ?_, ?_⟩
  · rw [← hitsOf_eq actual_result]; exact e2
  · intro j' hj' hlt
    rw [← hitsOf_eq actual_result]
    exact e3 j' hj' hlt

theorem evaluate_predictions_eq (draw_date : String) (predictions : List (List ℕ × ℚ))
    (actual_result : List ℕ) (hne : predictions ≠ []) :
    evaluate_predictions draw_date predictions actual_result =
      some { draw_date := draw_date
             actual_result := sortAsc actual_result
             total_predictions := predictions.length
             predictions := (evalRun predictions actual_result).1
             summary :=
               { best_hit_count := (evalRun predictions actual_result).2.best_hits
                 best_prediction_index := (evalRun predictions actual_result).2.best_index + 1
                 average_hit_count := ((evalRun predictions actual_result).2.total_hits : ℚ)
                     / (predictions.length : ℚ)
                 hit_distribution := (evalRun predictions actual_result).2.hist } } := by
  simp only [evaluate_predictions, if_neg hne]
  rfl

/-- Claim C4 (amended): for a nonempty batch, each prediction's hit count is
`|predicted ∩ actual|`, `best_hit_count` is the maximum hit count,
`average_hit_count` is the sum of hit counts over the batch size, and — when
the maximum is positive — `best_prediction_index` is `j + 1` for the first
input position `j` achieving the maximum (it stays `0` when every prediction
has zero hits, as the counterexample shows). -/
theorem evaluate_predictions_summary (draw_date : String)
    (predictions : List (List ℕ × ℚ)) (actual_result : List ℕ)
    (hne : predictions ≠ []) :
    ∃ ev, evaluate_predictions draw_date predictions actual_result = some ev ∧
      ev.predictions.length = predictions.length ∧
      (∀ j (hj : j < predictions.length) (hj2 : j < ev.predictions.length),
        (ev.predictions.get ⟨j, hj2⟩).hit_count
          = ((predictions.get ⟨j, hj⟩).1.toFinset ∩ actual_result.toFinset).card) ∧
      (∀ pe ∈ ev.predictions, pe.hit_count ≤ ev.summary.best_hit_count) ∧
      (∃ pe ∈ ev.predictions, pe.hit_count = ev.summary.best_hit_count) ∧
      ev.summary.average_hit_count
        = ((predictions.map (fun p => hitCount p.1 actual_result)).sum : ℚ)
            / (predictions.length : ℚ) ∧
      (0 < ev.summary.best_hit_count →
        ∃ j, ∃ hj : j < predictions.length,
          ev.summary.best_prediction_index = (j : ℤ) + 1 ∧
          hitCount (predictions.get ⟨j, hj⟩).1 actual_result = ev.summary.best_hit_count ∧
          ∀ j' (hj' : j' < predictions.length), j' < j →
            hitCount (predictions.get ⟨j', hj'⟩).1 actual_result
              < ev.summary.best_hit_count) := by
  refine ⟨_, evaluate_predictions_eq draw_date predictions actual_result hne,
    ?_, ?_, ?_, ?_, ?_, ?_⟩
  · exact evalRun_length predictions actual_result
  · intro j hj hj2
    exact evalRun_hit predictions actual_result j hj hj2
  · intro pe hpe
    have hpe1 : pe ∈ (evalRun predictions actual_result).1 := hpe
    obtain ⟨j, hget⟩ := List.mem_iff_get.mp hpe1
    show pe.hit_count ≤ (evalRun predictions actual_result).2.best_hits
    have hj : (j : ℕ) < predictions.length := by
      have h := j.isLt
      have h2 := evalRun_length predictions actual_result
      omega
    have hh := evalRun_hit predictions actual_result (j : ℕ) hj j.isLt
    rw [← hget, show (evalRun predictions actual_result).1.get j
        = (evalRun predictions actual_result).1.get ⟨(j : ℕ), j.isLt⟩ from rfl, hh,
      evalRun_best]
    exact mem_le_foldl_max _ _ _ (List.mem_map_of_mem _ (List.get_mem _ _ _))
  · show ∃ pe ∈ (evalRun predictions actual_result).1,
      pe.hit_count = (evalRun predictions actual_result).2.best_hits
    rcases foldl_max_mem (predictions.map (fun p => hitCount p.1 actual_result)) 0
      with h | h
    · -- the fold is 0: the first prediction attains it
      obtain ⟨p, hp⟩ := List.exists_mem_of_ne_nil predictions hne
      obtain ⟨j, hget⟩ := List.mem_iff_get.mp hp
      have hj2 : (j : ℕ) < (evalRun predictions actual_result).1.length := by
        rw [evalRun_length]; exact j.isLt
      refine ⟨_, List.get_mem _ _ hj2, ?_⟩
      rw [evalRun_hit predictions actual_result (j : ℕ) j.isLt hj2, evalRun_best, h]
      have hle : hitCount (predictions.get ⟨(j : ℕ), j.isLt⟩).1 actual_result
          ≤ (predictions.map (fun p => hitCount p.1 actual_result)).foldl max 0 :=
        mem_le_foldl_max _ _ _ (List.mem_map_of_mem _ (List.get_mem _ _ _))
      rw [h] at hle
      omega
    · obtain ⟨p, hp, hval⟩ := List.mem_map.mp h
      obtain ⟨j, hget⟩ := List.mem_iff_get.mp hp
      have hj2 : (j : ℕ) < (evalRun predictions actual_result).1.length := by
        rw [evalRun_length]; exact j.isLt
      refine ⟨_, List.get_mem _ _ hj2, ?_⟩
      rw [evalRun_hit predictions actual_result (j : ℕ) j.isLt hj2, evalRun_best, ← hval,
        show (⟨(j : ℕ), j.isLt⟩ : Fin predictions.length) = j from rfl, hget]
  · show ((evalRun predictions actual_result).2.total_hits : ℚ) / (predictions.length : ℚ)
      = ((predictions.map (fun p => hitCount p.1 actual_result)).sum : ℚ)
          / (predictions.length : ℚ)
    rw [evalRun_total]
  · intro hpos
    have hpos' : 0 < (evalRun predictions actual_result).2.best_hits := hpos
    obtain ⟨j, hj, e1, e2, e3⟩ := evalRun_bestIdx_pos predictions actual_result hpos'
    exact ⟨j, hj, by
      show (evalRun predictions actual_result).2.best_index + 1 = (j : ℤ) + 1
      rw [e1], e2, e3⟩

/-- Claim C4 counterexample: with actual outcome `[1..6]` and the single
prediction `[7..12]` (hit count 0, hence the maximum 0 is achieved by the
first prediction, whose 1-based index is 1), `best_prediction_index` is `0`,
designating no prediction rather than the first one. -/
theorem evaluate_predictions_bpi_counterexample :
    (evaluate_predictions "d" [([7, 8, 9, 10, 11, 12], 0)] [1, 2, 3, 4, 5, 6]).map
      (fun ev => ev.summary.best_prediction_index) = some 0 ∧
    (evaluate_predictions "d" [([7, 8, 9, 10, 11, 12], 0)] [1, 2, 3, 4, 5, 6]).map
      (fun ev => ev.summary.best_hit_count) = some 0 ∧ (0 : ℤ) ≠ 1 := by
  refine ⟨?_, ?_, by decide⟩ <;> decide

/-- Witness for the amended C4 theorem at Scenario B's inputs. -/
theorem evaluate_predictions_summary_witness :
    ∃ ev, evaluate_predictions "d"
        [([1, 2, 3, 4, 5, 6], 0), ([7, 8, 9, 10, 11, 12], 0)] [1, 2, 3, 4, 5, 6] = some ev ∧
      ev.predictions.length = 2 ∧
      (∀ pe ∈ ev.predictions, pe.hit_count ≤ ev.summary.best_hit_count) ∧
      ev.summary.average_hit_count = 3 := by
  obtain ⟨ev, hev, hlen, _, hle, _, havg, _⟩ :=
    evaluate_predictions_summary "d"
      [([1, 2, 3, 4, 5, 6], 0), ([7, 8, 9, 10, 11, 12], 0)] [1, 2, 3, 4, 5, 6] (by decide)
  refine ⟨ev, hev, by rw [hlen]; rfl, hle, ?_⟩
  rw [havg]
  rw [show ([([1, 2, 3, 4, 5, 6], (0 : ℚ)), ([7, 8, 9, 10, 11, 12], 0)].map
      (fun p => hitCount p.1 [1, 2, 3, 4, 5, 6])).sum = 6 from by decide]
  norm_num

/-- Claim C10: the Evaluator is undefined on an empty batch (the average
divides by zero, modelled as `none`), and on a nonempty batch in which every
prediction has zero hits the summary has `best_prediction_index = 0`
(designating no prediction) and `best_hit_count = 0`. -/
theorem evaluate_predictions_empty_and_allzero (draw_date : String)
    (predictions : List (List ℕ × ℚ)) (actual_result : List ℕ)
    (hne : predictions ≠ [])
    (hz : ∀ p ∈ predictions, hitCount p.1 actual_result = 0) :
    evaluate_predictions draw_date [] actual_result = none ∧
    ∃ ev, evaluate_predictions draw_date predictions actual_result = some ev ∧
      ev.summary.best_prediction_index = 0 ∧ ev.summary.best_hit_count = 0 := by
  refine ⟨rfl, _, evaluate_predictions_eq draw_date predictions actual_result hne, ?_, ?_⟩
  · show (evalRun predictions actual_result).2.best_index + 1 = 0
    have hbest : (evalRun predictions actual_result).2.best_hits = 0 := by
      rw [evalRun_best]
      rcases foldl_max_mem (predictions.map (fun p => hitCount p.1 actual_result)) 0
        with h | h
      · exact h
      · obtain ⟨p, hp, hval⟩ := List.mem_map.mp h
        rw [← hval]; exact hz p hp
    rw [evalRun_bestIdx_zero predictions actual_result hbest]
    ring
  · show (evalRun predictions actual_result).2.best_hits = 0
    rw [evalRun_best]
    rcases foldl_max_mem (predictions.map (fun p => hitCount p.1 actual_result)) 0
      with h | h
    · exact h
    · obtain ⟨p, hp, hval⟩ := List.mem_map.mp h
      rw [← hval]; exact hz p hp

/-- Witness for C10 at a concrete zero-hit batch. -/
theorem evaluate_predictions_empty_and_allzero_witness :
    evaluate_predictions "d" ([] : List (List ℕ × ℚ)) [1, 2, 3, 4, 5, 6] = none ∧
    ∃ ev, evaluate_predictions "d" [([10, 20, 30, 40, 41, 42], 0)] [1, 2, 3, 4, 5, 6]
        = some ev ∧
      ev.summary.best_prediction_index = 0 ∧ ev.summary.best_hit_count = 0 := by
  exact evaluate_predictions_empty_and_allzero "d" _ _ (by decide)
    (by intro p hp; simp only [List.mem_singleton] at hp; rw [hp]; decide)

theorem mem_clamped_bounds (weights : List (String × ℚ)) :
    ∀ (adjustments : List (String × ℚ)), ∀ p ∈ clamped_weights weights adjustments,
      1/100 ≤ p.2 ∧ p.2 ≤ 1/2 := by
  induction weights with
  | nil => intro adjustments p hp; simp [clamped_weights] at hp
  | cons w ws ih =>
      intro adjustments p hp
      cases adjustments with
      | nil => simp [clamped_weights] at hp
      | cons a as =>
          simp only [clamped_weights, List.zipWith_cons_cons, List.mem_cons] at hp
          rcases hp with hp | hp
          · subst hp
            refine ⟨le_max_left _ _, max_le (by norm_num) (min_le_left _ _)⟩
          · exact ih as p hp

theorem sum_pos_of_forall_le (l : List ℚ) (hne : l ≠ [])
    (h : ∀ x ∈ l, (1 : ℚ)/100 ≤ x) : 0 < l.sum := by
  cases l with
  | nil => exact absurd rfl hne
  | cons x xs =>
      rw [List.sum_cons]
      have hx : (0 : ℚ) < x := lt_of_lt_of_le (by norm_num) (h x (List.mem_cons_self x xs))
      have hxs : (0 : ℚ) ≤ xs.sum := by
        apply List.sum_nonneg
        intro y hy
        exact le_trans (by norm_num) (h y (List.mem_cons_of_mem x hy))
      linarith

theorem sum_map_div (l : List ℚ) (t : ℚ) : (l.map (fun x => x / t)).sum = l.sum / t := by
  induction l with
  | nil => simp
  | cons x xs ih => simp [ih, add_div]

theorem clamped_length (weights adjustments : List (String × ℚ))
    (hlen : weights.length = adjustments.length) :
    (clamped_weights weights adjustments).length = weights.length := by
  simp [clamped_weights, hlen]

/-- Claim C1 (amended): the adjustment step clamps each updated weight to
[0.01, 0.5] and then renormalizes, so the resulting vector sums to exactly 1
and every weight is positive; the [0.01, 0.5] bound holds for the clamped
values before renormalization, but — as the counterexample shows — not
necessarily after it. -/
theorem apply_weight_adjustments_normalized (weights adjustments : List (String × ℚ))
    (hlen : weights.length = adjustments.length) (hne : weights ≠ []) :
    ((apply_weight_adjustments weights adjustments).map Prod.snd).sum = 1 ∧
    (∀ p ∈ apply_weight_adjustments weights adjustments, 0 < p.2) ∧
    (∀ p ∈ clamped_weights weights adjustments, 1/100 ≤ p.2 ∧ p.2 ≤ 1/2) := by
  have hbounds := mem_clamped_bounds weights adjustments
  have hlen2 : (clamped_weights weights adjustments).length = weights.length :=
    clamped_length weights adjustments hlen
  have hcne : clamped_weights weights adjustments ≠ [] := by
    intro h
    apply hne
    have := hlen2
    rw [h] at this
    exact List.length_eq_zero.mp this.symm
  have hsne : (clamped_weights weights adjustments).map Prod.snd ≠ [] := by
    simpa using hcne
  have htot : 0 < ((clamped_weights weights adjustments).map Prod.snd).sum := by
    apply sum_pos_of_forall_le _ hsne
    intro x hx
    obtain ⟨p, hp, hpx⟩ := List.mem_map.mp hx
    rw [← hpx]
    exact (hbounds p hp).1
  refine ⟨?_, ?_, hbounds⟩
  · show ((((clamped_weights weights adjustments)).map
        (fun w => (w.1, w.2 / ((clamped_weights weights adjustments).map Prod.snd).sum))).map
          Prod.snd).sum = 1
    rw [List.map_map]
    have hcomp : (Prod.snd ∘ fun w : String × ℚ =>
        (w.1, w.2 / ((clamped_weights weights adjustments).map Prod.snd).sum))
        = fun w : String × ℚ =>
            w.2 / ((clamped_weights weights adjustments).map Prod.snd).sum := rfl
    rw [hcomp]
    have hsplit : ((clamped_weights weights adjustments).map (fun w : String × ℚ =>
        w.2 / ((clamped_weights weights adjustments).map Prod.snd).sum))
        = ((clamped_weights weights adjustments).map Prod.snd).map
            (fun x => x / ((clamped_weights weights adjustments).map Prod.snd).sum) := by
      rw [List.map_map]
      rfl
    rw [hsplit, sum_map_div]
    exact div_self (ne_of_gt htot)
  · intro p hp
    obtain ⟨q, hq, hqp⟩ := List.mem_map.mp hp
    rw [← hqp]
    exact div_pos (lt_of_lt_of_le (by norm_num) (hbounds q hq).1) htot

/-- Witness for the amended C1 theorem at a concrete weight vector. -/
theorem apply_weight_adjustments_normalized_witness :
    ((apply_weight_adjustments [("total_appearances", 3/20), ("recent_appearances", 1/5)]
        [("total_appearances", 1/100), ("recent_appearances", -1/50)]).map Prod.snd).sum = 1 ∧
    (∀ p ∈ apply_weight_adjustments [("total_appearances", 3/20), ("recent_appearances", 1/5)]
        [("total_appearances", 1/100), ("recent_appearances", -1/50)], 0 < p.2) ∧
    (∀ p ∈ clamped_weights [("total_appearances", 3/20), ("recent_appearances", 1/5)]
        [("total_appearances", 1/100), ("recent_appearances", -1/50)],
      1/100 ≤ p.2 ∧ p.2 ≤ 1/2) :=
  apply_weight_adjustments_normalized _ _ rfl (by simp)

/-- Claim C1 counterexample: starting from weights 0.5 and 0.01 with zero
deltas, renormalization divides by 0.51, pushing the first weight to 50/51,
which is outside [0.01, 0.5]. -/
theorem apply_weight_adjustments_counterexample :
    ((apply_weight_adjustments [("a", 1/2), ("b", 1/100)] [("a", 0), ("b", 0)]).map
      Prod.snd) = [50/51, 1/51] ∧ ¬ ((50 : ℚ)/51 ≤ 1/2) := by
  constructor
  · simp only [apply_weight_adjustments, clamped_weights, List.zipWith_cons_cons,
      List.zipWith_nil_right, List.map_cons, List.map_nil, List.sum_cons, List.sum_nil]
    norm_num
  · norm_num

theorem filterMap_eq_map_of_some (l : List ℕ) (g : ℕ → Option ℚ) (f : ℕ → ℚ)
    (h : ∀ n, g n = some (f n)) : l.filterMap g = l.map f := by
  induction l with
  | nil => rfl
  | cons x xs ih => simp [h, ih]

/-- Claim C3 (amended): effectiveness is
`max(0, 1 − |actual_avg − predicted_avg| / max(actual_avg, predicted_avg, 1))`
where, for a handled feature, `actual_avg` is the feature's mean over the
distinct numbers of the actual outcome; but a feature with no numbers in
either group gets effectiveness 1 (both averages default to 0), not 0. -/
theorem analyze_single_feature_spec (feature_name : String) (features : Features)
    (actual_result : List ℕ) (predictions : List PredictionEval) :
    (analyze_single_feature feature_name features actual_result predictions).effectiveness
      = max 0 (1 -
          |(analyze_single_feature feature_name features actual_result
              predictions).actual_average -
            (analyze_single_feature feature_name features actual_result
              predictions).predicted_average| /
          max (analyze_single_feature feature_name features actual_result
              predictions).actual_average
            (max (analyze_single_feature feature_name features actual_result
              predictions).predicted_average 1)) ∧
    (∀ f : ℕ → ℚ, (∀ num, featureValue features feature_name num = some (f num)) →
      actual_result ≠ [] →
      (analyze_single_feature feature_name features actual_result
          predictions).actual_average
        = (∑ n ∈ actual_result.toFinset, f n) / (actual_result.toFinset.card : ℚ)) ∧
    (actual_result = [] → predictions.filter (fun p => 2 ≤ p.hit_count) = [] →
      (analyze_single_feature feature_name features actual_result
        predictions).effectiveness = 1) := by
  refine ⟨rfl, ?_, ?_⟩
  · intro f hf hne
    show (if actual_result.dedup.filterMap (featureValue features feature_name) = []
        then (0 : ℚ)
        else (actual_result.dedup.filterMap (featureValue features feature_name)).sum /
          ((actual_result.dedup.filterMap (featureValue features feature_name)).length : ℚ))
      = (∑ n ∈ actual_result.toFinset, f n) / (actual_result.toFinset.card : ℚ)
    rw [filterMap_eq_map_of_some _ _ f hf]
    have hdne : actual_result.dedup ≠ [] := by
      intro h
      exact hne ((List.dedup_eq_nil actual_result).mp h)
    rw [if_neg (by simpa using hdne)]
    have hfs : actual_result.dedup.toFinset = actual_result.toFinset :=
      List.toFinset.ext fun x => by simp [List.mem_dedup]
    have hsum : (actual_result.dedup.map f).sum = ∑ n ∈ actual_result.toFinset, f n := by
      rw [← hfs]
      exact (List.sum_toFinset f (List.nodup_dedup actual_result)).symm
    have hlen : (actual_result.dedup.map f).length = actual_result.toFinset.card := by
      rw [List.length_map, List.card_toFinset]
    rw [hsum, hlen]
  · intro hact hpred
    show max 0 (1 - |_ - _| / max _ (max _ 1)) = 1
    rw [hact]
    have h1 : (([] : List ℕ).dedup.filterMap (featureValue features feature_name)) = [] :=
      rfl
    have h2 : ((predictions.filter (fun p => 2 ≤ p.hit_count)).flatMap
        (fun p => p.predicted_numbers)).dedup = [] := by
      rw [hpred]
      rfl
    show max 0 (1 -
        |(if ([] : List ℚ) = [] then (0 : ℚ) else _) -
          (if ((predictions.filter (fun p => 2 ≤ p.hit_count)).flatMap
              (fun p => p.predicted_numbers)).dedup.filterMap
              (featureValue features feature_name) = [] then (0 : ℚ) else _)| /
        max _ (max _ 1)) = 1
    rw [h2]
    norm_num

/-- Claim C3 counterexample: for feature name `hot_cold` (whose dispatch chain
adds no numbers to either group) with a 6-number actual outcome and no
predictions, the effectiveness is 1, not 0 as the claim states. -/
theorem analyze_single_feature_counterexample :
    (analyze_single_feature "hot_cold" ⟨fun _ => 0, fun _ => 0, fun _ => 0⟩
      [1, 2, 3, 4, 5, 6] []).effectiveness = 1 ∧
    ¬ (analyze_single_feature "hot_cold" ⟨fun _ => 0, fun _ => 0, fun _ => 0⟩
      [1, 2, 3, 4, 5, 6] []).effectiveness = 0 := by
  constructor
  · show max 0 (1 - |(0 : ℚ) - 0| / max 0 (max 0 1)) = 1
    norm_num
  · show ¬ max 0 (1 - |(0 : ℚ) - 0| / max 0 (max 0 1)) = 0
    norm_num

/-- Witness for the amended C3 theorem at a concrete handled feature. -/
theorem analyze_single_feature_spec_witness :
    (analyze_single_feature "missing_intervals" ⟨fun n => n, fun n => n, fun n => n⟩
      [1, 2] []).actual_average = 3/2 := by
  have h := (analyze_single_feature_spec "missing_intervals"
    ⟨fun n => n, fun n => n, fun n => n⟩ [1, 2] []).2.1 (fun n => (n : ℚ))
    (fun num => rfl) (by simp)
  rw [h]
  norm_num [List.toFinset_cons, List.toFinset_nil]

/-- Claim C9: invoked for a draw date with no stored evaluation, the learner
returns the weight vector unchanged, does not persist, and reports the
missing-evaluation condition. -/
theorem learn_from_evaluation_missing (weights : List (String × ℚ))
    (results : String → Option Evaluation) (draw_date : String) (features : Features)
    (learning_rate : ℚ) (h : results draw_date = none) :
    learn_from_evaluation weights results draw_date features learning_rate
      = (weights, false, true) := by
  simp [learn_from_evaluation, h]

/-- Witness for C9 at a concrete learner state. -/
theorem learn_from_evaluation_missing_witness :
    learn_from_evaluation [("total_appearances", 3/20)] (fun _ => none) "2024-01-05"
      ⟨fun _ => 0, fun _ => 0, fun _ => 0⟩ (1/10)
      = ([("total_appearances", 3/20)], false, true) :=
  learn_from_evaluation_missing _ _ _ _ _ rfl

/-- Claim C2 (code bug): on Scenario A's history — 30 draws each containing
number 7 — the code reports 29, because the scan breaks at the first
(oldest) appearance, while the spec's draws-since-most-recent-appearance
value is 0. -/
theorem get_missing_intervals_scenarioA :
    get_missing_intervals (List.replicate 30 (List.replicate 6 7)) 7 = 29 ∧
    missing_intervals_described (List.replicate 30 (List.replicate 6 7)) 7 = 0 ∧
    (29 : ℕ) ≠ 0 := by
  refine ⟨by decide, by decide, by decide⟩

/-- Claim C5 (amended): the pair-frequency and odd/even-ratio features are
total on every non-empty well-formed history (single-draw histories
included), but on the empty history both divide by zero (raise) instead of
returning defaults, as the counterexample shows. -/
theorem feature_defaults_nonempty (data : List (List ℕ)) (hne : data ≠ [])
    (hrow : ∀ row ∈ data, row.length = 6) :
    (get_consecutive_pairs_frequency data).isSome ∧ (get_odd_even_ratio data).isSome := by
  constructor
  · have hlen : data.length ≠ 0 := fun h => hne (List.length_eq_zero.mp h)
    simp only [get_consecutive_pairs_frequency, if_neg hlen, Option.isSome_some]
  · cases data with
    | nil => exact absurd rfl hne
    | cons d rest =>
        have hd : d.length = 6 := hrow d (List.mem_cons_self d rest)
        have hflat : ((d :: rest).flatMap id).length
            = d.length + (rest.flatMap id).length := by
          simp [List.flatMap_cons]
        have hpos : ((d :: rest).flatMap id).length ≠ 0 := by
          rw [hflat, hd]; omega
        simp only [get_odd_even_ratio, if_neg hpos, Option.isSome_some]

/-- Claim C5 counterexample: on the empty history both features hit the
unguarded division by zero (the raise is `none` in the embedding) instead of
returning defaults. -/
theorem feature_empty_history_counterexample :
    get_consecutive_pairs_frequency [] = none ∧ get_odd_even_ratio [] = none :=
  ⟨rfl, rfl⟩

/-- Witness for the amended C5 theorem at a single-draw history. -/
theorem feature_defaults_nonempty_witness :
    (get_consecutive_pairs_frequency [[1, 5, 12, 23, 34, 45]]).isSome ∧
    (get_odd_even_ratio [[1, 5, 12, 23, 34, 45]]).isSome :=
  feature_defaults_nonempty _ (by decide)
    (by intro row hrow; simp only [List.mem_singleton] at hrow; rw [hrow]; rfl)

theorem genLoop_agree (k : ℕ) : ∀ (fuel a : ℕ) (preds : List (List ℕ × ℚ))
    (sample sample' : ℕ → List ℕ),
    (∀ t, a ≤ t → t < a + fuel → sample' t = sample t) →
    genLoop sample' k a fuel preds = genLoop sample k a fuel preds := by
  intro fuel
  induction fuel with
  | zero => intro a preds sample sample' _; rfl
  | succ fuel ih =>
      intro a preds sample sample' hagree
      simp only [genLoop]
      by_cases hlt : preds.length < k
      · rw [if_pos hlt, if_pos hlt]
        rw [hagree a (le_refl a) (by omega)]
        exact ih (a + 1) _ sample sample' (fun t ht1 ht2 => hagree t (by omega) (by omega))
      · rw [if_neg hlt, if_neg hlt]

theorem genLoop_preserve (P : List ℕ × ℚ → Prop) (sample : ℕ → List ℕ) (k : ℕ)
    (hP : ∀ t, P (sample t, calculate_combination_score (sample t))) :
    ∀ (fuel a : ℕ) (preds : List (List ℕ × ℚ)), (∀ p ∈ preds, P p) →
      ∀ p ∈ genLoop sample k a fuel preds, P p := by
  intro fuel
  induction fuel with
  | zero => intro a preds hpreds p hp; exact hpreds p hp
  | succ fuel ih =>
      intro a preds hpreds p hp
      simp only [genLoop] at hp
      by_cases hlt : preds.length < k
      · rw [if_pos hlt] at hp
        by_cases hdup : preds.any
            (fun q => decide (q.1.toFinset = (sample a).toFinset)) = true
        · rw [if_pos hdup] at hp
          exact ih (a + 1) preds hpreds p hp
        · rw [if_neg hdup] at hp
          refine ih (a + 1) _ ?_ p hp
          intro q hq
          rcases List.mem_append.mp hq with h | h
          · exact hpreds q h
          · rw [List.mem_singleton.mp h]
            exact hP a
      · rw [if_neg hlt] at hp
        exact hpreds p hp

theorem genLoop_pairwise (sample : ℕ → List ℕ) (k : ℕ) :
    ∀ (fuel a : ℕ) (preds : List (List ℕ × ℚ)),
      preds.Pairwise (fun p q => p.1.toFinset ≠ q.1.toFinset) →
      (genLoop sample k a fuel preds).Pairwise
        (fun p q => p.1.toFinset ≠ q.1.toFinset) := by
  intro fuel
  induction fuel with
  | zero => intro a preds h; exact h
  | succ fuel ih =>
      intro a preds hpw
      simp only [genLoop]
      by_cases hlt : preds.length < k
      · rw [if_pos hlt]
        by_cases hdup : preds.any
            (fun q => decide (q.1.toFinset = (sample a).toFinset)) = true
        · rw [if_pos hdup]
          exact ih (a + 1) preds hpw
        · rw [if_neg hdup]
          apply ih (a + 1)
          rw [List.pairwise_append]
          refine ⟨hpw, List.pairwise_singleton _ _, ?_⟩
          intro p hp q hq
          rw [List.mem_singleton.mp hq]
          intro hcontra
          apply hdup
          rw [List.any_eq_true]
          exact ⟨p, hp, by rw [decide_eq_true_eq]; exact hcontra⟩
      · rw [if_neg hlt]
        exact hpw

theorem genLoop_stuck (sample : ℕ → List ℕ) (k : ℕ) (S : Finset ℕ)
    (hs : ∀ t, (sample t).toFinset = S) :
    ∀ (fuel a : ℕ) (preds : List (List ℕ × ℚ)), preds ≠ [] →
      (∀ p ∈ preds, p.1.toFinset = S) →
      genLoop sample k a fuel preds = preds := by
  intro fuel
  induction fuel with
  | zero => intro a preds _ _; rfl
  | succ fuel ih =>
      intro a preds hne hS
      simp only [genLoop]
      by_cases hlt : preds.length < k
      · rw [if_pos hlt]
        have hdup : preds.any
            (fun q => decide (q.1.toFinset = (sample a).toFinset)) = true := by
          rw [List.any_eq_true]
          obtain ⟨p, hp⟩ := List.exists_mem_of_ne_nil preds hne
          exact ⟨p, hp, by rw [decide_eq_true_eq, hS p hp, hs a]⟩
        rw [if_pos hdup]
        exact ih (a + 1) preds hne hS
      · rw [if_neg hlt]

theorem genLoop_pool_single (sample : ℕ → List ℕ) (k : ℕ) (S : Finset ℕ)
    (hs : ∀ t, (sample t).toFinset = S) (hk : 1 ≤ k) :
    ∀ (fuel : ℕ), 1 ≤ fuel → ∀ a,
      genLoop sample k a fuel [] =
        [(sample a, calculate_combination_score (sample a))] := by
  intro fuel hfuel a
  cases fuel with
  | zero => omega
  | succ fuel =>
      simp only [genLoop]
      rw [if_pos (by simpa using hk)]
      simp only [List.any_nil, Bool.false_eq_true, if_neg, List.nil_append]
      exact genLoop_stuck sample k S hs fuel (a + 1) _ (by simp)
        (by intro p hp; rw [List.mem_singleton.mp hp]; exact hs a)

/-- Claim C6: the generator consumes at most `100·k` sampling attempts (its
output only depends on the first `100·k` samples), returns at most the
requested count without raising when the budget runs out (the embedding is
total and keeps the partial batch), and a pool of exactly 6 numbers yields
exactly 1 unique candidate for any requested count `k ≥ 1`. -/
theorem predict_numbers_budget (sample : ℕ → List ℕ) (candidates : List ℕ) (k : ℕ)
    (hs : ∀ t, validSample candidates (sample t)) (hk : 1 ≤ k) :
    (∀ sample' : ℕ → List ℕ, (∀ t, t < k * 100 → sample' t = sample t) →
      predict_numbers sample' candidates k = predict_numbers sample candidates k) ∧
    (predict_numbers sample candidates k).length ≤ k ∧
    (candidates.Nodup → candidates.length = 6 →
      (predict_numbers sample candidates k).length = 1) := by
  refine ⟨?_, ?_, ?_⟩
  · intro sample' hagree
    unfold predict_numbers
    rw [genLoop_agree k (k * 100) 0 [] sample sample'
      (fun t _ h2 => hagree t (by omega))]
  · unfold predict_numbers
    exact List.length_take_le _ _
  · intro hnodup hlen6
    have hS : ∀ t, (sample t).toFinset = candidates.toFinset := by
      intro t
      obtain ⟨hl, hnd, hsub⟩ := hs t
      apply Finset.eq_of_subset_of_card_le
      · intro x hx
        rw [List.mem_toFinset] at hx ⊢
        exact hsub x hx
      · have h1 : candidates.toFinset.card ≤ 6 := by
          have := List.toFinset_card_le candidates
          omega
        have h2 : (sample t).toFinset.card = 6 := by
          rw [List.toFinset_card_of_nodup hnd, hl]
        omega
    show (List.take k (List.insertionSort (fun p q : List ℕ × ℚ => q.2 ≤ p.2)
      (genLoop sample k 0 (k * 100) []))).length = 1
    rw [genLoop_pool_single sample k candidates.toFinset hS hk (k * 100) (by omega) 0]
    rw [show List.insertionSort (fun p q : List ℕ × ℚ => q.2 ≤ p.2)
        [(sample 0, calculate_combination_score (sample 0))]
        = [(sample 0, calculate_combination_score (sample 0))] from rfl]
    rw [List.length_take]
    simp
    omega

/-- Witness for C6 at Scenario D's inputs: a pool of exactly 6 numbers and a
request for 6 predictions give exactly one candidate. -/
theorem predict_numbers_budget_witness :
    (predict_numbers (fun _ => [1, 2, 3, 4, 5, 6]) [1, 2, 3, 4, 5, 6] 6).length = 1 :=
  (predict_numbers_budget (fun _ => [1, 2, 3, 4, 5, 6]) [1, 2, 3, 4, 5, 6] 6
    (fun _ => show validSample [1, 2, 3, 4, 5, 6] [1, 2, 3, 4, 5, 6] from
      ⟨rfl, by decide, by decide⟩) (by decide)).2.2 (by decide) rfl

/-- Claim C7: every candidate in a generated batch is a 6-element duplicate-
free list of numbers from the pool (hence within [1, 49]), no two candidates
in the batch are set-equal, and the batch is sorted by combination score in
descending order. -/
theorem predict_numbers_batch (sample : ℕ → List ℕ) (candidates : List ℕ) (k : ℕ)
    (hs : ∀ t, validSample candidates (sample t))
    (hrange : ∀ x ∈ candidates, 1 ≤ x ∧ x ≤ 49) :
    (∀ p ∈ predict_numbers sample candidates k,
      p.1.length = 6 ∧ p.1.Nodup ∧ ∀ x ∈ p.1, 1 ≤ x ∧ x ≤ 49) ∧
    (predict_numbers sample candidates k).Pairwise
      (fun p q => p.1.toFinset ≠ q.1.toFinset) ∧
    List.Sorted (fun p q => q.2 ≤ p.2) (predict_numbers sample candidates k) := by
  have hmemL : ∀ p ∈ genLoop sample k 0 (k * 100) [],
      p.1.length = 6 ∧ p.1.Nodup ∧ ∀ x ∈ p.1, 1 ≤ x ∧ x ≤ 49 := by
    apply genLoop_preserve
      (fun p => p.1.length = 6 ∧ p.1.Nodup ∧ ∀ x ∈ p.1, 1 ≤ x ∧ x ≤ 49) sample k
    · intro t
      obtain ⟨hl, hnd, hsub⟩ := hs t
      exact ⟨hl, hnd, fun x hx => hrange x (hsub x hx)⟩
    · intro p hp
      simp at hp
  refine ⟨?_, ?_, ?_⟩
  · intro p hp
    unfold predict_numbers at hp
    have hp2 : p ∈ List.insertionSort (fun p q : List ℕ × ℚ => q.2 ≤ p.2)
        (genLoop sample k 0 (k * 100) []) := List.mem_of_mem_take hp
    rw [List.mem_insertionSort] at hp2
    exact hmemL p hp2
  · have hpwL : (genLoop sample k 0 (k * 100) []).Pairwise
        (fun p q => p.1.toFinset ≠ q.1.toFinset) :=
      genLoop_pairwise sample k (k * 100) 0 [] List.Pairwise.nil
    have hperm := List.perm_insertionSort (fun p q : List ℕ × ℚ => q.2 ≤ p.2)
      (genLoop sample k 0 (k * 100) [])
    have hpwS : (List.insertionSort (fun p q : List ℕ × ℚ => q.2 ≤ p.2)
        (genLoop sample k 0 (k * 100) [])).Pairwise
          (fun p q => p.1.toFinset ≠ q.1.toFinset) :=
      (hperm.pairwise_iff fun hab => fun h => hab h.symm).mpr hpwL
    unfold predict_numbers
    exact hpwS.sublist (List.take_sublist _ _)
  · have hsorted := List.sorted_insertionSort (fun p q : List ℕ × ℚ => q.2 ≤ p.2)
      (genLoop sample k 0 (k * 100) [])
    unfold predict_numbers
    exact List.Pairwise.sublist (List.take_sublist _ _) hsorted

/-- Witness for C7 at a concrete pool and constant sampler. -/
theorem predict_numbers_batch_witness :
    (∀ p ∈ predict_numbers (fun _ => [2, 4, 6, 8, 10, 12]) [2, 4, 6, 8, 10, 12, 14] 3,
      p.1.length = 6 ∧ p.1.Nodup ∧ ∀ x ∈ p.1, 1 ≤ x ∧ x ≤ 49) ∧
    List.Sorted (fun p q : List ℕ × ℚ => q.2 ≤ p.2)
      (predict_numbers (fun _ => [2, 4, 6, 8, 10, 12]) [2, 4, 6, 8, 10, 12, 14] 3) := by
  have h := predict_numbers_batch (fun _ => [2, 4, 6, 8, 10, 12])
    [2, 4, 6, 8, 10, 12, 14] 3
    (fun _ => show validSample [2, 4, 6, 8, 10, 12, 14] [2, 4, 6, 8, 10, 12] from
      ⟨rfl, by decide, by decide⟩) (by decide)
  exact ⟨h.1, h.2.2⟩

/-- Claim C8: with the caller's convention that the 6 per-number scores lie
in [0, 1] and a combination score in [0, 1], confidence equals
`100 × (0.6 × mean(scores) + 0.4 × combination_score)`, is monotone in the
combination score with the per-number scores held fixed, and lies in
[0, 100]. -/
theorem calculate_confidence_score_spec (scores : List ℚ) (cs cs2 : ℚ)
    (hlen : scores.length = 6) (hsc : ∀ s ∈ scores, 0 ≤ s ∧ s ≤ 1)
    (hcs0 : 0 ≤ cs) (hcs1 : cs ≤ 1) :
    calculate_confidence_score scores cs
      = 100 * ((6/10) * (scores.sum / 6) + (4/10) * cs) ∧
    (cs ≤ cs2 → calculate_confidence_score scores cs
      ≤ calculate_confidence_score scores cs2) ∧
    0 ≤ calculate_confidence_score scores cs ∧
    calculate_confidence_score scores cs ≤ 100 := by
  have hsum0 : 0 ≤ scores.sum := List.sum_nonneg (fun x hx => (hsc x hx).1)
  have hsum6 : scores.sum ≤ 6 := by
    have h := List.sum_le_card_nsmul scores 1 (fun x hx => (hsc x hx).2)
    rw [hlen] at h
    simpa using h
  have heq : ∀ c : ℚ, calculate_confidence_score scores c
      = (scores.sum / 6 * (6/10) + c * (4/10)) * 100 := by
    intro c
    show (scores.sum / (scores.length : ℚ) * (6/10) + c * (4/10)) * 100 = _
    rw [hlen]
    norm_num
  have hm0 : 0 ≤ scores.sum / 6 := div_nonneg hsum0 (by norm_num)
  have hm1 : scores.sum / 6 ≤ 1 := by
    rw [div_le_one (by norm_num : (0 : ℚ) < 6)]
    exact hsum6
  refine ⟨by rw [heq]; ring, ?_, ?_, ?_⟩
  · intro hle
    rw [heq, heq]
    nlinarith
  · rw [heq]
    nlinarith
  · rw [heq]
    nlinarith

theorem countConsecutive_le : ∀ l : List ℕ, countConsecutive l ≤ l.length - 1
  | [] => by simp [countConsecutive]
  | [_] => by simp [countConsecutive]
  | x :: y :: rest => by
      have ih := countConsecutive_le (y :: rest)
      simp only [countConsecutive, List.length_cons] at ih ⊢
      split <;> omega

/-- The combination score of any 6-number candidate within [1, 49] lies in
[0, 1], so the combination-score hypothesis of the C8 theorem holds for
every score the Scoring Engine actually produces. -/
theorem calculate_combination_score_bounds (numbers : List ℕ)
    (hlen : numbers.length = 6) (hle : ∀ x ∈ numbers, x ≤ 49) :
    0 ≤ calculate_combination_score numbers ∧ calculate_combination_score numbers ≤ 1 := by
  have h6 : ¬ numbers.length ≠ 6 := by omega
  simp only [calculate_combination_score, if_neg h6]
  -- sum component
  have hsumN : numbers.sum ≤ 294 := by
    have h := List.sum_le_card_nsmul numbers 49 hle
    rw [hlen] at h
    simpa using h
  have ht1a : (0 : ℚ) ≤ |(numbers.sum : ℚ) - 147| := abs_nonneg _
  have ht1b : |(numbers.sum : ℚ) - 147| ≤ 147 := by
    rw [abs_le]
    have h0 : (0 : ℚ) ≤ (numbers.sum : ℚ) := Nat.cast_nonneg _
    have h1 : ((numbers.sum : ℕ) : ℚ) ≤ 294 := by exact_mod_cast hsumN
    constructor <;> linarith
  -- odd/even component
  have hocle : List.countP (fun n => decide (n % 2 = 1)) numbers ≤ 6 := by
    have h : List.countP (fun n => decide (n % 2 = 1)) numbers ≤ numbers.length :=
      List.countP_le_length _
    omega
  rw [show ((6 - List.countP (fun n => decide (n % 2 = 1)) numbers : ℕ) : ℚ)
      = 6 - ((List.countP (fun n => decide (n % 2 = 1)) numbers : ℕ) : ℚ) by
    push_cast [Nat.cast_sub hocle]
    norm_num]
  have hoc0 : (0 : ℚ) ≤ ((List.countP (fun n => decide (n % 2 = 1)) numbers : ℕ) : ℚ) :=
    Nat.cast_nonneg _
  have hoc6 : ((List.countP (fun n => decide (n % 2 = 1)) numbers : ℕ) : ℚ) ≤ 6 := by
    exact_mod_cast hocle
  have ht2a : (0 : ℚ) ≤ |((List.countP (fun n => decide (n % 2 = 1)) numbers : ℕ) : ℚ)
      - (6 - ((List.countP (fun n => decide (n % 2 = 1)) numbers : ℕ) : ℚ))| := abs_nonneg _
  have ht2b : |((List.countP (fun n => decide (n % 2 = 1)) numbers : ℕ) : ℚ)
      - (6 - ((List.countP (fun n => decide (n % 2 = 1)) numbers : ℕ) : ℚ))| ≤ 6 := by
    rw [abs_le]
    constructor <;> linarith
  -- distribution component
  have hlen5 : (List.map (fun c => if 1 ≤ c ∧ c ≤ 2 then (1 : ℚ) else if c = 0 then 3 / 10
      else 1 / 2) (List.map (fun b => List.countP (fun n => decide (bucketIdx n = b)) numbers)
        (List.range 5))).length = 5 := by
    simp
  have hpts : ∀ x ∈ List.map (fun c => if 1 ≤ c ∧ c ≤ 2 then (1 : ℚ) else if c = 0 then 3 / 10
      else 1 / 2) (List.map (fun b => List.countP (fun n => decide (bucketIdx n = b)) numbers)
        (List.range 5)), (3 / 10 : ℚ) ≤ x ∧ x ≤ 1 := by
    intro x hx
    obtain ⟨c, _, hcx⟩ := List.mem_map.mp hx
    rw [← hcx]
    split
    · norm_num
    · split <;> norm_num
  have hS1 : (3 / 2 : ℚ) ≤ (List.map (fun c => if 1 ≤ c ∧ c ≤ 2 then (1 : ℚ)
      else if c = 0 then 3 / 10 else 1 / 2)
      (List.map (fun b => List.countP (fun n => decide (bucketIdx n = b)) numbers)
        (List.range 5))).sum := by
    have h := List.card_nsmul_le_sum (List.map (fun c => if 1 ≤ c ∧ c ≤ 2 then (1 : ℚ)
      else if c = 0 then 3 / 10 else 1 / 2)
      (List.map (fun b => List.countP (fun n => decide (bucketIdx n = b)) numbers)
        (List.range 5))) (3 / 10) (fun x hx => (hpts x hx).1)
    rw [hlen5] at h
    have : (5 : ℕ) • (3 / 10 : ℚ) = 3 / 2 := by
      rw [nsmul_eq_mul]
      norm_num
    linarith [this ▸ h]
  have hS2 : (List.map (fun c => if 1 ≤ c ∧ c ≤ 2 then (1 : ℚ)
      else if c = 0 then 3 / 10 else 1 / 2)
      (List.map (fun b => List.countP (fun n => decide (bucketIdx n = b)) numbers)
        (List.range 5))).sum ≤ 5 := by
    have h := List.sum_le_card_nsmul (List.map (fun c => if 1 ≤ c ∧ c ≤ 2 then (1 : ℚ)
      else if c = 0 then 3 / 10 else 1 / 2)
      (List.map (fun b => List.countP (fun n => decide (bucketIdx n = b)) numbers)
        (List.range 5))) 1 (fun x hx => (hpts x hx).2)
    rw [hlen5] at h
    simpa using h
  -- consecutive component
  have hccN : countConsecutive (sortAsc numbers) ≤ 5 := by
    have h := countConsecutive_le (sortAsc numbers)
    have hl : (sortAsc numbers).length = 6 := by
      rw [show sortAsc numbers = List.insertionSort (· ≤ ·) numbers from rfl,
        (List.perm_insertionSort (· ≤ ·) numbers).length_eq, hlen]
    omega
  have hcc0 : (0 : ℚ) ≤ ((countConsecutive (sortAsc numbers) : ℕ) : ℚ) := Nat.cast_nonneg _
  have hcc5 : ((countConsecutive (sortAsc numbers) : ℕ) : ℚ) ≤ 5 := by exact_mod_cast hccN
  -- prime component
  have hpcle : List.countP (fun n => is_prime n) numbers ≤ 6 := by
    have h : List.countP (fun n => is_prime n) numbers ≤ numbers.length :=
      List.countP_le_length _
    omega
  have hpc0 : (0 : ℚ) ≤ ((List.countP (fun n => is_prime n) numbers : ℕ) : ℚ) :=
    Nat.cast_nonneg _
  have hpc6 : ((List.countP (fun n => is_prime n) numbers : ℕ) : ℚ) ≤ 6 := by
    exact_mod_cast hpcle
  have ht5a : (0 : ℚ) ≤ |((List.countP (fun n => is_prime n) numbers : ℕ) : ℚ) - 2| :=
    abs_nonneg _
  have ht5b : |((List.countP (fun n => is_prime n) numbers : ℕ) : ℚ) - 2| ≤ 4 := by
    rw [abs_le]
    constructor <;> linarith
  -- square component
  have hscle : List.countP (fun n => is_square n) numbers ≤ 6 := by
    have h : List.countP (fun n => is_square n) numbers ≤ numbers.length :=
      List.countP_le_length _
    omega
  have hsc0 : (0 : ℚ) ≤ ((List.countP (fun n => is_square n) numbers : ℕ) : ℚ) :=
    Nat.cast_nonneg _
  have hsc6 : ((List.countP (fun n => is_square n) numbers : ℕ) : ℚ) ≤ 6 := by
    exact_mod_cast hscle
  have ht6a : (0 : ℚ) ≤ |((List.countP (fun n => is_square n) numbers : ℕ) : ℚ) - 1| :=
    abs_nonneg _
  have ht6b : |((List.countP (fun n => is_square n) numbers : ℕ) : ℚ) - 1| ≤ 5 := by
    rw [abs_le]
    constructor <;> linarith
  constructor <;> linarith

/-- Witness for C8 at concrete per-number scores and the combination score
the Scoring Engine produces for a concrete candidate. -/
theorem calculate_confidence_score_spec_witness :
    calculate_confidence_score [1, 1, 1, 1, 1, 1]
        (calculate_combination_score [1, 12, 17, 28, 33, 46])
      = 100 * ((6/10) * (([1, 1, 1, 1, 1, 1] : List ℚ).sum / 6)
          + (4/10) * calculate_combination_score [1, 12, 17, 28, 33, 46]) ∧
    0 ≤ calculate_confidence_score [1, 1, 1, 1, 1, 1]
        (calculate_combination_score [1, 12, 17, 28, 33, 46]) ∧
    calculate_confidence_score [1, 1, 1, 1, 1, 1]
        (calculate_combination_score [1, 12, 17, 28, 33, 46]) ≤ 100 := by
  have hb := calculate_combination_score_bounds [1, 12, 17, 28, 33, 46] rfl (by decide)
  have h := calculate_confidence_score_spec [1, 1, 1, 1, 1, 1]
    (calculate_combination_score [1, 12, 17, 28, 33, 46])
    (calculate_combination_score [1, 12, 17, 28, 33, 46]) rfl
    (by
      intro s hs
      have hs1 : s = 1 := by simpa using hs
      rw [hs1]
      norm_num)
    hb.1 hb.2
  exact ⟨h.1, h.2.2.1, h.2.2.2⟩

end Loto
